import Mathlib

/-!
Verification development for the Heikin-Ashi candlestick transform of
`src/components/StockQuote.tsx` (`calculateHeikinAshi`, both the
time-series-map variant at lines 228-267 and the array variant at lines
539-577, which perform the same computation over their iteration order),
and for `processHistoricalData` of `lambda/fetchHistoricalData.js`.

Numbers are modelled by `ℚ` (the inputs the component receives are finite
decimal price strings, whose arithmetic here is exact); dates are modelled
by `Nat` (ISO date strings compare like their timestamps, and the code only
copies and orders them).
-/

/-- A raw OHLC price bar, one entry of the daily time series, in the order
the source supplies it.  Fields `o`, `h`, `l`, `c` model `open`, `high`,
`low`, `close` (`open` is a Lean keyword). -/
structure RawBar where
  date : Nat
  o : ℚ
  h : ℚ
  l : ℚ
  c : ℚ
deriving DecidableEq

/-- A Heikin-Ashi output bar (`HeikinAshiDataPoint` in the source):
`time` is the copied date, `o h l c` model `open high low close`. -/
structure HABar where
  time : Nat
  o : ℚ
  h : ℚ
  l : ℚ
  c : ℚ
deriving DecidableEq

/-- The `index === 0` branch of `calculateHeikinAshi`: the first iterated
bar uses the raw open and close (`haOpen = open; haClose = close`), and the
same `Math.max`/`Math.min` envelope as every other bar. -/
def mkSeed (b : RawBar) : HABar :=
  { time := b.date, o := b.o, h := max b.h (max b.o b.c),
    l := min b.l (min b.o b.c), c := b.c }

/-- The `index > 0` branch of `calculateHeikinAshi`:
`haOpen = (prevHA.open + prevHA.close) / 2`,
`haClose = (open + high + low + close) / 4`,
`haHigh = Math.max(high, haOpen, haClose)`,
`haLow = Math.min(low, haOpen, haClose)`. -/
def haStep (p : HABar) (b : RawBar) : HABar :=
  let haOpen := (p.o + p.c) / 2
  let haClose := (b.o + b.h + b.l + b.c) / 4
  { time := b.date, o := haOpen, h := max b.h (max haOpen haClose),
    l := min b.l (min haOpen haClose), c := haClose }

/-- One iteration of the `forEach` body: `prevHA` is `null` exactly on the
first iteration (it is assigned at the end of every iteration). -/
def nextHA : Option HABar → RawBar → HABar
  | none, b => mkSeed b
  | some p, b => haStep p b

/-- The `forEach` loop of `calculateHeikinAshi`: pushes one Heikin-Ashi
candle per input bar, in iteration order, threading `prevHA`. -/
def haScan (p : Option HABar) : List RawBar → List HABar
  | [] => []
  | b :: rest => nextHA p b :: haScan (some (nextHA p b)) rest

/-- The function `calculateHeikinAshi` (StockQuote.tsx lines 228-267 and 539-577): the
scan over the input in the order it is supplied (for the map variant,
`Object.entries` insertion order), followed by
`heikinAshiData.reverse()` (comment: "Reverse the array to get
chronological order").  There is no input validation and no error path:
the function is total and returns a list of the same shape. -/
def calculateHeikinAshi (ts : List RawBar) : List HABar :=
  (haScan none ts).reverse

theorem heikinAshi_sample_eval :
    calculateHeikinAshi [⟨1, 10, 12, 9, 11⟩, ⟨2, 11, 13, 10, 12⟩] =
      [⟨2, (21:ℚ)/2, 13, 10, 23/2⟩, ⟨1, 10, 12, 9, 11⟩] := by
  norm_num [calculateHeikinAshi, haScan, nextHA, mkSeed, haStep]

theorem haScan_length (ts : List RawBar) : ∀ p, (haScan p ts).length = ts.length := by
  induction ts with
  | nil => intro p; rfl
  | cons b rest ih => intro p; simp [haScan, ih]

theorem calculateHeikinAshi_length (ts : List RawBar) :
    (calculateHeikinAshi ts).length = ts.length := by
  simp [calculateHeikinAshi, haScan_length]

theorem nextHA_time (p : Option HABar) (b : RawBar) : (nextHA p b).time = b.date := by
  cases p <;> rfl

theorem nextHA_h (p : Option HABar) (b : RawBar) :
    (nextHA p b).h = max b.h (max (nextHA p b).o (nextHA p b).c) := by
  cases p <;> rfl

theorem nextHA_l (p : Option HABar) (b : RawBar) :
    (nextHA p b).l = min b.l (min (nextHA p b).o (nextHA p b).c) := by
  cases p <;> rfl

theorem haScan_mem_bounds (ts : List RawBar) :
    ∀ (p : Option HABar) (x : HABar), x ∈ haScan p ts →
      x.l ≤ x.o ∧ x.o ≤ x.h ∧ x.l ≤ x.c ∧ x.c ≤ x.h := by
  induction ts with
  | nil => intro p x hx; simp [haScan] at hx
  | cons b rest ih =>
      intro p x hx
      simp only [haScan, List.mem_cons] at hx
      rcases hx with rfl | hx
      · refine ⟨?_, ?_, ?_, ?_⟩
        · rw [nextHA_l]
          exact le_trans (min_le_right _ _) (min_le_left _ _)
        · rw [nextHA_h]
          exact le_trans (le_max_left _ _) (le_max_right _ _)
        · rw [nextHA_l]
          exact le_trans (min_le_right _ _) (min_le_right _ _)
        · rw [nextHA_h]
          exact le_trans (le_max_right _ _) (le_max_right _ _)
      · exact ih _ x hx

theorem haScan_getElem_rel (ts : List RawBar) :
    ∀ (p : Option HABar) (k : Nat) (hk : k < ts.length) (hk2 : k < (haScan p ts).length),
      (haScan p ts)[k].time = ts[k].date ∧
      (haScan p ts)[k].h = max ts[k].h (max (haScan p ts)[k].o (haScan p ts)[k].c) ∧
      (haScan p ts)[k].l = min ts[k].l (min (haScan p ts)[k].o (haScan p ts)[k].c) := by
  induction ts with
  | nil => intro p k hk hk2; exact absurd hk (Nat.not_lt_zero k)
  | cons b rest ih =>
      intro p k hk hk2
      match k with
      | 0 => simpa [haScan] using ⟨nextHA_time p b, nextHA_h p b, nextHA_l p b⟩
      | (k + 1) =>
          have hk1 : k < rest.length := by simpa using hk
          have hk3 : k < (haScan (some (nextHA p b)) rest).length := by
            rw [haScan_length]; exact hk1
          simpa [haScan] using ih (some (nextHA p b)) k hk1 hk3

theorem haScan_getElem_zero (ts : List RawBar) (p : Option HABar) (h0 : 0 < ts.length)
    (h1 : 0 < (haScan p ts).length) :
    (haScan p ts)[0] = nextHA p ts[0] := by
  cases ts with
  | nil => exact absurd h0 (by simp)
  | cons b rest => simp [haScan]

theorem haScan_getElem_succ (ts : List RawBar) :
    ∀ (p : Option HABar) (k : Nat) (hk : k + 1 < ts.length)
      (h1 : k + 1 < (haScan p ts).length) (h2 : k < (haScan p ts).length),
      (haScan p ts)[k + 1] = haStep (haScan p ts)[k] ts[k + 1] := by
  induction ts with
  | nil => intro p k hk h1 h2; exact absurd hk (Nat.not_lt_zero _)
  | cons b rest ih =>
      intro p k hk h1 h2
      match k with
      | 0 =>
          cases rest with
          | nil => simp at hk
          | cons b2 r2 => simp [haScan, nextHA]
      | (k + 1) =>
          have hk1 : k + 1 < rest.length := by simpa using hk
          have h3 : k + 1 < (haScan (some (nextHA p b)) rest).length := by
            rw [haScan_length]; exact hk1
          have h4 : k < (haScan (some (nextHA p b)) rest).length := by
            rw [haScan_length]; omega
          simpa [haScan] using ih (some (nextHA p b)) k hk1 h3 h4

theorem calculateHeikinAshi_getElem (ts : List RawBar) (j : Nat)
    (h1 : j < (calculateHeikinAshi ts).length) (h2 : ts.length - 1 - j < (haScan none ts).length) :
    (calculateHeikinAshi ts)[j] = (haScan none ts)[ts.length - 1 - j] := by
  have hj : j < (haScan none ts).reverse.length := by
    simpa [calculateHeikinAshi] using h1
  simp only [calculateHeikinAshi]
  rw [List.getElem_reverse]
  simp only [haScan_length]

/-- Sample daily series in the order the upstream source supplies it
(newest first): dates 2 then 1. -/
def sampleSeries : List RawBar := [⟨2, 11, 13, 10, 12⟩, ⟨1, 10, 12, 9, 11⟩]

/-- C5: for every input series and every output index j (the output bar and
the j-th bar of the reversed input carry the same date, which realizes the
pairing of input and output bars by date), the output bar high is the max
of the raw high and of the own Heikin-Ashi open and close of the bar, and its low is
the min of the raw low and of its own open and close: all three candidates
appear in each max/min. -/
theorem heikinAshi_envelope (ts : List RawBar) (j : Nat)
    (h1 : j < (calculateHeikinAshi ts).length) (h2 : j < ts.reverse.length) :
    (calculateHeikinAshi ts)[j].time = ts.reverse[j].date ∧
    (calculateHeikinAshi ts)[j].h =
      max ts.reverse[j].h
        (max (calculateHeikinAshi ts)[j].o (calculateHeikinAshi ts)[j].c) ∧
    (calculateHeikinAshi ts)[j].l =
      min ts.reverse[j].l
        (min (calculateHeikinAshi ts)[j].o (calculateHeikinAshi ts)[j].c) := by
  have hj : j < ts.length := by simpa using h2
  have hk : ts.length - 1 - j < ts.length := by omega
  have hk2 : ts.length - 1 - j < (haScan none ts).length := by
    rw [haScan_length]; exact hk
  have e1 : (calculateHeikinAshi ts)[j] = (haScan none ts)[ts.length - 1 - j] :=
    calculateHeikinAshi_getElem ts j h1 hk2
  have e2 : ts.reverse[j] = ts[ts.length - 1 - j] := List.getElem_reverse h2
  rw [e1, e2]
  exact haScan_getElem_rel ts none (ts.length - 1 - j) hk hk2

theorem heikinAshi_envelope_witness :
    (0 < (calculateHeikinAshi sampleSeries).length ∧
      0 < sampleSeries.reverse.length) ∧
    ((calculateHeikinAshi sampleSeries)[0].time = sampleSeries.reverse[0].date ∧
     (calculateHeikinAshi sampleSeries)[0].h =
       max sampleSeries.reverse[0].h
         (max (calculateHeikinAshi sampleSeries)[0].o
           (calculateHeikinAshi sampleSeries)[0].c) ∧
     (calculateHeikinAshi sampleSeries)[0].l =
       min sampleSeries.reverse[0].l
         (min (calculateHeikinAshi sampleSeries)[0].o
           (calculateHeikinAshi sampleSeries)[0].c)) :=
  have hA : 0 < (calculateHeikinAshi sampleSeries).length := by
    simp [calculateHeikinAshi_length, sampleSeries]
  have hB : 0 < sampleSeries.reverse.length := by simp [sampleSeries]
  ⟨⟨hA, hB⟩, heikinAshi_envelope sampleSeries 0 hA hB⟩

/-- C9: every output bar of `calculateHeikinAshi` satisfies
low ≤ open ≤ high and low ≤ close ≤ high, even when the raw input bars
violate the raw OHLC invariant, because each output bar high (resp. low)
is the max (resp. min) of a candidate set containing the own open and
close of that same bar. -/
theorem heikinAshi_output_wellFormed (ts : List RawBar) (x : HABar)
    (hx : x ∈ calculateHeikinAshi ts) :
    x.l ≤ x.o ∧ x.o ≤ x.h ∧ x.l ≤ x.c ∧ x.c ≤ x.h := by
  simp only [calculateHeikinAshi, List.mem_reverse] at hx
  exact haScan_mem_bounds ts none x hx

theorem heikinAshi_output_wellFormed_witness :
    ((⟨1, 10, 11, 10, 11⟩ : HABar) ∈ calculateHeikinAshi [⟨1, 10, 2, 20, 11⟩]) ∧
    ((⟨1, 10, 11, 10, 11⟩ : HABar).l ≤ (⟨1, 10, 11, 10, 11⟩ : HABar).o ∧
     (⟨1, 10, 11, 10, 11⟩ : HABar).o ≤ (⟨1, 10, 11, 10, 11⟩ : HABar).h ∧
     (⟨1, 10, 11, 10, 11⟩ : HABar).l ≤ (⟨1, 10, 11, 10, 11⟩ : HABar).c ∧
     (⟨1, 10, 11, 10, 11⟩ : HABar).c ≤ (⟨1, 10, 11, 10, 11⟩ : HABar).h) :=
  have hx : (⟨1, 10, 11, 10, 11⟩ : HABar) ∈ calculateHeikinAshi [⟨1, 10, 2, 20, 11⟩] := by
    norm_num [calculateHeikinAshi, haScan, nextHA, mkSeed]
  ⟨hx, heikinAshi_output_wellFormed _ _ hx⟩

/-- C8: two invocations of `calculateHeikinAshi` on the same input yield
identical outputs.  The source function reads only its parameter and
function-local variables (the `push` and final `reverse` act on the freshly
allocated local array) and touches no state shared across calls, so it embeds
as a pure function and determinism is equality of results on equal inputs. -/
theorem calculateHeikinAshi_deterministic (ts1 ts2 : List RawBar) (h : ts1 = ts2) :
    calculateHeikinAshi ts1 = calculateHeikinAshi ts2 := by
  rw [h]

theorem calculateHeikinAshi_deterministic_witness :
    sampleSeries = sampleSeries ∧
    calculateHeikinAshi sampleSeries = calculateHeikinAshi sampleSeries :=
  ⟨rfl, calculateHeikinAshi_deterministic sampleSeries sampleSeries rfl⟩

/-- C6 counterexample: on the empty input series the code raises nothing and
returns the empty output series (`forEach` over zero entries pushes nothing
and `reverse` returns the empty array), contradicting the claim that an empty
input raises `EmptySeriesError` rather than returning a (possibly empty)
output series. -/
theorem heikinAshi_empty_cex : calculateHeikinAshi [] = [] := rfl

/-- C6 amended: applying the transform to an empty input series (zero bars)
returns the empty output series; no error is raised (the code has no error
path). -/
theorem heikinAshi_empty_amended (ts : List RawBar) (h : ts = []) :
    calculateHeikinAshi ts = [] := by
  rw [h]; rfl

theorem heikinAshi_empty_amended_witness :
    (([] : List RawBar) = []) ∧ calculateHeikinAshi ([] : List RawBar) = [] :=
  ⟨rfl, heikinAshi_empty_amended [] rfl⟩

/-- C2 counterexample: for the single-bar input series with bar
(date 1, open 10, high 12, low 9, close 11), the unique output bar (same
date) has close 11 — the raw close from the `index === 0` branch — whereas
the claim requires (10 + 12 + 9 + 11) / 4 = 10.5, so the close formula fails
at i = 0. -/
theorem heikinAshi_close_seed_cex :
    (calculateHeikinAshi [⟨1, 10, 12, 9, 11⟩])[0].time = 1 ∧
    (calculateHeikinAshi [⟨1, 10, 12, 9, 11⟩])[0].c ≠ (10 + 12 + 9 + 11) / 4 := by
  norm_num [calculateHeikinAshi, haScan, nextHA, mkSeed]

/-- C2 amended: the close formula holds at every output index except the last
(the last bar of the returned series is the one computed first, by the
`index === 0` seed branch, and its close is the raw close of that bar): for every
j with j + 1 < length, the j-th output bar and the j-th bar of the reversed
input carry the same date and
output[j].close = (input.open + input.high + input.low + input.close) / 4 of
that bar. -/
theorem heikinAshi_close_formula (ts : List RawBar) (j : Nat)
    (hj : j + 1 < ts.length) (h1 : j < (calculateHeikinAshi ts).length)
    (h2 : j < ts.reverse.length) :
    (calculateHeikinAshi ts)[j].time = ts.reverse[j].date ∧
    (calculateHeikinAshi ts)[j].c =
      (ts.reverse[j].o + ts.reverse[j].h + ts.reverse[j].l + ts.reverse[j].c) / 4 := by
  have hk2 : ts.length - 1 - j < (haScan none ts).length := by
    rw [haScan_length]; omega
  have e1 : (calculateHeikinAshi ts)[j] = (haScan none ts)[ts.length - 1 - j] :=
    calculateHeikinAshi_getElem ts j h1 hk2
  have e2 : ts.reverse[j] = ts[ts.length - 1 - j] := List.getElem_reverse h2
  have hsucc : ts.length - 1 - j = (ts.length - 2 - j) + 1 := by omega
  have hk1 : (ts.length - 2 - j) + 1 < ts.length := by omega
  have hs1 : (ts.length - 2 - j) + 1 < (haScan none ts).length := by
    rw [haScan_length]; omega
  have hs2 : ts.length - 2 - j < (haScan none ts).length := by
    rw [haScan_length]; omega
  have estep : (haScan none ts)[(ts.length - 2 - j) + 1] =
      haStep (haScan none ts)[ts.length - 2 - j] ts[(ts.length - 2 - j) + 1] :=
    haScan_getElem_succ ts none (ts.length - 2 - j) hk1 hs1 hs2
  rw [e1, e2]
  simp only [hsucc]
  rw [estep]
  exact ⟨rfl, rfl⟩

theorem heikinAshi_close_formula_witness :
    (0 + 1 < sampleSeries.length ∧ 0 < (calculateHeikinAshi sampleSeries).length ∧
      0 < sampleSeries.reverse.length) ∧
    ((calculateHeikinAshi sampleSeries)[0].time = sampleSeries.reverse[0].date ∧
     (calculateHeikinAshi sampleSeries)[0].c =
       (sampleSeries.reverse[0].o + sampleSeries.reverse[0].h +
         sampleSeries.reverse[0].l + sampleSeries.reverse[0].c) / 4) :=
  have hA : 0 + 1 < sampleSeries.length := by simp [sampleSeries]
  have hB : 0 < (calculateHeikinAshi sampleSeries).length := by
    simp [calculateHeikinAshi_length, sampleSeries]
  have hC : 0 < sampleSeries.reverse.length := by simp [sampleSeries]
  ⟨⟨hA, hB, hC⟩, heikinAshi_close_formula sampleSeries 0 hA hB hC⟩

/-- Two-bar input series supplied newest first (descending dates), the order
the upstream AlphaVantage time series arrives in. -/
def dIn : List RawBar := [⟨2, 20, 30, 10, 24⟩, ⟨1, 10, 12, 9, 11⟩]

/-- Two-bar input series supplied oldest first (ascending dates). -/
def aIn : List RawBar := [⟨1, 10, 12, 9, 11⟩, ⟨2, 11, 13, 10, 12⟩]

/-- C1 fails on the code: for the newest-first input series `dIn` the
returned series is in ascending date order, yet output[1].open = 20 while
(output[0].open + output[0].close) / 2 = 65/4.  The code evaluates the
recurrence in the supplied (newest-to-oldest) iteration order and only
reverses afterwards, so read in ascending date order the recurrence relates
each bar to its successor, not its predecessor, contradicting both the claim
and the Heikin-Ashi definition in the header comment of the file itself. -/
theorem heikinAshi_recurrence_cex :
    (calculateHeikinAshi dIn)[0].time < (calculateHeikinAshi dIn)[1].time ∧
    (calculateHeikinAshi dIn)[1].o ≠
      ((calculateHeikinAshi dIn)[0].o + (calculateHeikinAshi dIn)[0].c) / 2 := by
  norm_num [calculateHeikinAshi, haScan, nextHA, mkSeed, haStep, dIn]

/-- C3 fails on the code: for the ascending-supplied input series `aIn` the
returned series has the length of the input but its dates are strictly
descending (2 then 1), not ascending: the code never normalizes the input
order before the scan, it only reverses the result, so an ascending input
yields a descending output. -/
theorem heikinAshi_order_cex :
    (calculateHeikinAshi aIn).length = aIn.length ∧
    (calculateHeikinAshi aIn)[0].time = 2 ∧
    (calculateHeikinAshi aIn)[1].time = 1 ∧
    ¬ (calculateHeikinAshi aIn)[0].time < (calculateHeikinAshi aIn)[1].time := by
  norm_num [calculateHeikinAshi, haScan, nextHA, mkSeed, haStep, aIn]

/-- C4 fails on the code: for the newest-first input series `dIn` the returned
series is in ascending date order and its first bar carries the oldest date,
but the open of that bar is 22 = (20 + 24) / 2 — the half-sum coming from the
`index > 0` branch — not the raw open 10 of the oldest input bar: the seed branch
runs at the first *iterated* bar, which for a newest-first input is the
newest bar, not the oldest. -/
theorem heikinAshi_seed_cex :
    (calculateHeikinAshi dIn)[0].time < (calculateHeikinAshi dIn)[1].time ∧
    (calculateHeikinAshi dIn)[0].time = dIn.reverse[0].date ∧
    (calculateHeikinAshi dIn)[0].o ≠ dIn.reverse[0].o := by
  norm_num [calculateHeikinAshi, haScan, nextHA, mkSeed, haStep, dIn]

/-- A JavaScript number as produced by `parseFloat` on a time-series field:
`none` models NaN — the result of parsing a missing field or a non-numeric
string such as "N/A" — and `some q` a finite value.  JS arithmetic on NaN
and `Math.max`/`Math.min` with a NaN argument yield NaN, which the
operations below mirror. -/
abbrev JSNum := Option ℚ

/-- NaN-absorbing addition of JS numbers. -/
def jAdd : JSNum → JSNum → JSNum
  | some a, some b => some (a + b)
  | _, _ => none

/-- NaN-absorbing division of a JS number by a numeric literal. -/
def jDiv : JSNum → ℚ → JSNum
  | some a, q => some (a / q)
  | none, _ => none

/-- Model of `Math.max`: NaN if either argument is NaN. -/
def jMax : JSNum → JSNum → JSNum
  | some a, some b => some (max a b)
  | _, _ => none

/-- Model of `Math.min`: NaN if either argument is NaN. -/
def jMin : JSNum → JSNum → JSNum
  | some a, some b => some (min a b)
  | _, _ => none

/-- A raw daily bar of the StockQuote.tsx map variant after the four
`parseFloat(values[...])` calls at lines 233-236; a malformed or missing
source field gives a NaN (`none`) component. -/
structure JSBar where
  date : Nat
  o : JSNum
  h : JSNum
  l : JSNum
  c : JSNum
deriving DecidableEq

/-- A Heikin-Ashi output bar whose numeric fields are JS numbers. -/
structure JSHABar where
  time : Nat
  o : JSNum
  h : JSNum
  l : JSNum
  c : JSNum
deriving DecidableEq

/-- The `index === 0` branch over JS numbers. -/
def jsSeed (b : JSBar) : JSHABar :=
  { time := b.date, o := b.o, h := jMax b.h (jMax b.o b.c),
    l := jMin b.l (jMin b.o b.c), c := b.c }

/-- The `index > 0` branch over JS numbers. -/
def jsStep (p : JSHABar) (b : JSBar) : JSHABar :=
  let haOpen := jDiv (jAdd p.o p.c) 2
  let haClose := jDiv (jAdd (jAdd (jAdd b.o b.h) b.l) b.c) 4
  { time := b.date, o := haOpen, h := jMax b.h (jMax haOpen haClose),
    l := jMin b.l (jMin haOpen haClose), c := haClose }

/-- One `forEach` iteration over JS numbers. -/
def nextJS : Option JSHABar → JSBar → JSHABar
  | none, b => jsSeed b
  | some p, b => jsStep p b

/-- The `forEach` loop over JS numbers. -/
def jsScan (p : Option JSHABar) : List JSBar → List JSHABar
  | [] => []
  | b :: rest => nextJS p b :: jsScan (some (nextJS p b)) rest

/-- The function `calculateHeikinAshi` of StockQuote.tsx lines 228-267 at the JS-number
level: the input entries carry the results of the `parseFloat` calls, so a
bar whose close field is "N/A" (or missing) enters with close = NaN.  The
function validates nothing and has no error path. -/
def calculateHeikinAshiJS (ts : List JSBar) : List JSHABar :=
  (jsScan none ts).reverse

/-- A newest-first series whose newest bar has close "N/A", i.e. close
parses to NaN. -/
def nanSeries : List JSBar :=
  [⟨2, some 11, some 13, some 10, none⟩, ⟨1, some 10, some 12, some 9, some 11⟩]

/-- C7 fails on the code: on a series containing a bar whose close is not a
finite number the transform raises nothing — it returns a full-length series
— and NaN appears in the output: the output close, high and
low of the malformed bar are NaN, and the NaN also propagates into the open,
high and low of the neighbouring bar through the recurrence. -/
theorem heikinAshi_nan_propagates :
    (calculateHeikinAshiJS nanSeries).length = nanSeries.length ∧
    (calculateHeikinAshiJS nanSeries)[1].time = 2 ∧
    (calculateHeikinAshiJS nanSeries)[1].c = none ∧
    (calculateHeikinAshiJS nanSeries)[1].h = none ∧
    (calculateHeikinAshiJS nanSeries)[0].o = none ∧
    (calculateHeikinAshiJS nanSeries)[0].h = none := by
  simp [calculateHeikinAshiJS, jsScan, nextJS, jsSeed, jsStep, jAdd, jDiv, jMax, jMin,
    nanSeries]

/-- The five string-valued fields of one AlphaVantage daily time-series
entry, as read by the Lambda ("1. open" .. "5. volume"). -/
structure DailyVals where
  o : String
  h : String
  l : String
  c : String
  v : String

/-- One processed record of the Lambda response body. -/
structure HRec where
  date : Nat
  o : ℚ
  h : ℚ
  l : ℚ
  c : ℚ
  volume : Int

/-- The function `processHistoricalData` (lambda/fetchHistoricalData.js lines 57-69): maps
every (date, values) entry of the time series to one record whose price
fields are `parseFloat` of the strings and whose volume is `parseInt`, then
sorts ascending by date via `.sort((a, b) => new Date(a.date) - new
Date(b.date))`.  Dates are modelled by their timestamps (`Nat`), the JS
builtins parseFloat and parseInt by the parameters `pf` and `pz`, and the
stable `Array.prototype.sort` under this comparator by the stable
`List.mergeSort` on `date ≤ date`. -/
def processHistoricalData (pf : String → ℚ) (pz : String → Int)
    (ts : List (Nat × DailyVals)) : List HRec :=
  (ts.map fun e => ⟨e.1, pf e.2.o, pf e.2.h, pf e.2.l, pf e.2.c, pz e.2.v⟩).mergeSort
    fun a b => decide (a.date ≤ b.date)

/-- C10: `processHistoricalData` returns exactly one record per time-series
entry — the output is a permutation of the entry-wise map sending each
(date, values) entry to the record with that date, the four prices given by
parseFloat and the volume by parseInt — and the output is sorted in
ascending date order, so the array delivered to the front end is always
oldest-to-newest. -/
theorem processHistoricalData_sorted_map (pf : String → ℚ) (pz : String → Int)
    (ts : List (Nat × DailyVals)) :
    (processHistoricalData pf pz ts).Perm
        (ts.map fun e => ⟨e.1, pf e.2.o, pf e.2.h, pf e.2.l, pf e.2.c, pz e.2.v⟩) ∧
    (processHistoricalData pf pz ts).Pairwise (fun a b => a.date ≤ b.date) := by
  constructor
  · exact List.mergeSort_perm _ _
  · have ht : ∀ a b c : HRec, decide (a.date ≤ b.date) = true →
        decide (b.date ≤ c.date) = true → decide (a.date ≤ c.date) = true := by
      intro a b c hab hbc
      simp only [decide_eq_true_eq] at hab hbc ⊢
      omega
    have hto : ∀ a b : HRec,
        (decide (a.date ≤ b.date) || decide (b.date ≤ a.date)) = true := by
      intro a b
      simp [Nat.le_total]
    have hs := @List.sorted_mergeSort HRec (fun a b => decide (a.date ≤ b.date)) ht hto
      (ts.map fun e => ⟨e.1, pf e.2.o, pf e.2.h, pf e.2.l, pf e.2.c, pz e.2.v⟩)
    exact hs.imp (by intro a b hab; simpa using hab)
